import Mathlib

/-!
Shallow embedding of the wiki's versioned-storage core (src/wiki.py) and of the
token signing helpers (src/sign.py).

The git object store consumed through pygit2 is modelled as an append-only
store of blobs and commits held in a `State`: blob ids and revision ids are
indices into the corresponding append-only lists, which captures the
write-once, content-addressed object graph (objects are never mutated and an
id always denotes the same object).  Trees are association lists from paths
to blob ids; the pygit2 TreeBuilder's insert/remove are modelled so that a
path is bound at most once.  The external docutils renderer (wrapped by
render_html in the source) is a parameter of every operation that renders:
a function from (navigation flavor, title, source) to an optional rendered
string, none modelling a raised docutils exception.  The sqlite tables used
by the source are carried in the state: the fts corpus used by edit and the
generated render cache used by get_html_revision.
-/

namespace Wiki

/-- Page content and rendered output are byte strings in the source; they are
modelled as Lean strings (the source decodes blobs as UTF-8). -/
abbrev Content := String

/-- Blob ids index the append-only blob store. -/
abbrev BlobId := Nat

/-- Revision ids index the append-only commit store. -/
abbrev RevId := Nat

/-- A git tree: a finite mapping from path to blob id, as built by the pygit2
TreeBuilder.  Paths are bound at most once. -/
abbrev Tree := List (String × BlobId)

/-- Lookup of a path in a tree, as done by tree[name] and the membership
test in the source. -/
def Tree.find? : Tree → String → Option BlobId
  | [], _ => none
  | e :: t, p => if e.1 = p then some e.2 else Tree.find? t p

/-- TreeBuilder.remove: drop the binding for a path. -/
def Tree.remove (t : Tree) (p : String) : Tree :=
  t.filter (fun e => e.1 != p)

/-- TreeBuilder.insert: bind a path to a blob id, replacing any previous
binding of that path. -/
def Tree.insert (t : Tree) (p : String) (v : BlobId) : Tree :=
  (p, v) :: Tree.remove t p

/-- A commit object: tree, parent (none only for the root commit), commit
message and author signature (the email stored next to the username in the
users table plays no role in any claim and is omitted). -/
structure Commit where
  tree : Tree
  parent : Option RevId
  message : String
  author : String
deriving Repr, DecidableEq

/-- The whole mutable state of the application: the git repository (blobs,
commits, the refs/heads/master head pointer) and the sqlite tables touched by
the modelled operations (the fts corpus written by edit, and the generated
table holding the render cache keyed by title, revision and navigation
flavor).  Blob and commit stores are append-only: ids are list indices. -/
structure State where
  blobs : List Content
  commits : List Commit
  headRev : RevId
  corpus : List (String × String)
  generated : List ((String × RevId × Bool) × Content)
deriving Repr, DecidableEq

/-- Reading a commit object by id (repo[revision]); none models the KeyError
pygit2 raises for an unknown id. -/
def lookupCommit (s : State) (r : RevId) : Option Commit :=
  s.commits.get? r

/-- Reading a blob by id (repo[oid]). -/
def lookupBlob (s : State) (i : BlobId) : Option Content :=
  s.blobs.get? i

/-- Tree of the head commit (repo.head.tree).  The head ref always points at
an existing commit (main() creates the root commit before serving requests),
so the empty-tree default is never reached in any reachable state. -/
def headTree (s : State) : Tree :=
  match lookupCommit s s.headRev with
  | some c => c.tree
  | none => []

/-- Source get_page_revision(name, revision): look the commit up, look
name + ".rst" up in its tree, and read the blob.  none models the KeyError
raised when the revision or the path is absent (the spec's PageNotFound /
RevisionNotFound failures). -/
def get_page_revision (s : State) (name : String) (revision : RevId) : Option Content :=
  (lookupCommit s revision).bind fun c =>
    (Tree.find? c.tree (name ++ ".rst")).bind fun oid => lookupBlob s oid

/-- Errors surfaced by the modelled operations: wikiError models the
source's Error exception and the json error dictionaries carrying a message;
keyError models an uncaught KeyError / IndexError from pygit2 lookups;
renderFailure models a docutils exception escaping render_html. -/
inductive WikiError where
  | wikiError (msg : String)
  | keyError
  | renderFailure
deriving Repr, DecidableEq

/-- The state produced by a create_commit on refs/heads/master with the
current head as sole parent (source commit()): the commit object is appended
to the store and the head ref advances to it. -/
def commit_state (s : State) (author message : String) (tree : Tree) : State :=
  { s with commits := s.commits ++ [⟨tree, some s.headRev, message, author⟩],
           headRev := s.commits.length }

/-- The state produced by a successful edit(title, message, page, username):
the page blob is written, title + ".rst" is bound to it in a tree built from
the head tree, the commit is created, and the corpus rows for the title are
replaced (delete where title matches, then insert). -/
def edit_state (s : State) (title message page author : String) : State :=
  let oid := s.blobs.length
  let s1 : State := { s with blobs := s.blobs ++ [page] }
  let tree := Tree.insert (headTree s) (title ++ ".rst") oid
  let s2 := commit_state s1 author message tree
  { s2 with corpus := (title, page) :: s2.corpus.filter (fun e => e.1 != title) }

/-- Source edit(title, message, page, username).  The first line validates
the markup by rendering it (with the default, non-navigation translator);
a docutils failure there aborts the operation before the blob write, the
tree build, the commit and the corpus update. -/
def edit (render_html : Bool → String → String → Option String)
    (s : State) (title message page author : String) : Except WikiError State :=
  match render_html false title page with
  | none => Except.error WikiError.renderFailure
  | some _ => Except.ok (edit_state s title message page author)

/-- Source is_changed(name, content): true when the page is absent from the
head tree or its head content differs from content.  The outer none models
the KeyError raised when the path is present in the head tree but the blob
cannot be read; the blob store being append-only, that case is unreachable
from reachable states. -/
def is_changed (s : State) (name content : String) : Option Bool :=
  if (Tree.find? (headTree s) (name ++ ".rst")).isNone then some true
  else (get_page_revision s name s.headRev).map (fun c => content != c)

/-- The edit entry point (spec commit_edit, source json_edit minus the login
token check): reject edits that make no change, otherwise run edit.  On the
error paths nothing is executed, so the repository, the head pointer, the
corpus and the cache are untouched. -/
def commit_edit (render_html : Bool → String → String → Option String)
    (s : State) (title message page author : String) : Except WikiError State :=
  match is_changed s title page with
  | none => Except.error WikiError.keyError
  | some false => Except.error (WikiError.wikiError "an edit must make changes")
  | some true => edit render_html s title message page author

/-- The state created by main() on the first run: a root commit with the
empty tree, no parent, message "initialize repository", author wiki. -/
def init_state : State :=
  ⟨[], [⟨[], none, "initialize repository", "wiki"⟩], 0, [], []⟩

/-! Basic lemmas on trees and the append-only stores. -/

theorem Tree.find?_insert_self (t : Tree) (p : String) (v : BlobId) :
    Tree.find? (Tree.insert t p v) p = some v := by
  simp [Tree.insert, Tree.find?]

theorem Tree.remove_cons (e : String × BlobId) (t : Tree) (p : String) :
    Tree.remove (e :: t) p =
      if e.1 = p then Tree.remove t p else e :: Tree.remove t p := by
  by_cases hep : e.1 = p <;> simp [Tree.remove, List.filter_cons, hep]

theorem Tree.find?_remove_ne (t : Tree) (p q : String) (h : q ≠ p) :
    Tree.find? (Tree.remove t p) q = Tree.find? t q := by
  induction t with
  | nil => rfl
  | cons e t ih =>
    rw [Tree.remove_cons]
    by_cases hep : e.1 = p
    · rw [if_pos hep, ih, Tree.find?]
      have hne : ¬ e.1 = q := by rw [hep]; exact fun hh => h hh.symm
      rw [if_neg hne]
    · rw [if_neg hep, Tree.find?, Tree.find?]
      by_cases heq : e.1 = q
      · rw [if_pos heq, if_pos heq]
      · rw [if_neg heq, if_neg heq, ih]

theorem Tree.find?_remove_self (t : Tree) (p : String) :
    Tree.find? (Tree.remove t p) p = none := by
  induction t with
  | nil => rfl
  | cons e t ih =>
    rw [Tree.remove_cons]
    by_cases hep : e.1 = p
    · rw [if_pos hep]; exact ih
    · rw [if_neg hep, Tree.find?, if_neg hep]; exact ih

theorem Tree.find?_insert_ne (t : Tree) (p q : String) (v : BlobId) (h : q ≠ p) :
    Tree.find? (Tree.insert t p v) q = Tree.find? t q := by
  rw [Tree.insert, Tree.find?]
  have hne : ¬ (p, v).1 = q := fun hh => h hh.symm
  rw [if_neg hne]
  exact Tree.find?_remove_ne t p q h

theorem List.get?_append_some {α} {l₁ l₂ : List α} {n : Nat} {a : α}
    (h : l₁.get? n = some a) : (l₁ ++ l₂).get? n = some a := by
  have hn : n < l₁.length := by
    by_contra hge
    rw [List.get?_eq_none.mpr (Nat.le_of_not_lt hge)] at h
    exact Option.noConfusion h
  rw [List.get?_append hn]
  exact h

theorem get_page_revision_eq_some {s : State} {name : String} {r : RevId} {c0 : Content}
    (h : get_page_revision s name r = some c0) :
    ∃ c oid, lookupCommit s r = some c ∧
      Tree.find? c.tree (name ++ ".rst") = some oid ∧ lookupBlob s oid = some c0 := by
  unfold get_page_revision at h
  obtain ⟨c, hc, h2⟩ := Option.bind_eq_some.mp h
  obtain ⟨oid, hf, hb⟩ := Option.bind_eq_some.mp h2
  exact ⟨c, oid, hc, hf, hb⟩

/-- Running a page resolution given the commit lookup and the tree lookup. -/
theorem get_page_revision_run (s : State) (name : String) (r : RevId)
    (c : Commit) (oid : BlobId) (hc : lookupCommit s r = some c)
    (hf : Tree.find? c.tree (name ++ ".rst") = some oid) :
    get_page_revision s name r = lookupBlob s oid := by
  unfold get_page_revision
  rw [hc, Option.some_bind, hf, Option.some_bind]

/-- A page resolution fails when the path is absent from the tree. -/
theorem get_page_revision_absent (s : State) (name : String) (r : RevId)
    (c : Commit) (hc : lookupCommit s r = some c)
    (hf : Tree.find? c.tree (name ++ ".rst") = none) :
    get_page_revision s name r = none := by
  unfold get_page_revision
  rw [hc, Option.some_bind, hf, Option.none_bind]

/-! Lemmas about the state after a successful edit. -/

theorem lookupCommit_edit_state {s : State} {r : RevId} {c : Commit}
    (title message page author : String) (h : lookupCommit s r = some c) :
    lookupCommit (edit_state s title message page author) r = some c := by
  simpa [lookupCommit, edit_state, commit_state] using List.get?_append_some h

theorem lookupBlob_edit_state {s : State} {i : BlobId} {b : Content}
    (title message page author : String) (h : lookupBlob s i = some b) :
    lookupBlob (edit_state s title message page author) i = some b := by
  simpa [lookupBlob, edit_state, commit_state] using List.get?_append_some h

theorem headRev_edit_state (s : State) (title message page author : String) :
    (edit_state s title message page author).headRev = s.commits.length := rfl

theorem lookupCommit_edit_state_head (s : State) (title message page author : String) :
    lookupCommit (edit_state s title message page author)
      (edit_state s title message page author).headRev =
      some ⟨Tree.insert (headTree s) (title ++ ".rst") s.blobs.length,
            some s.headRev, message, author⟩ := by
  simp [lookupCommit, edit_state, commit_state, List.get?_concat_length]

theorem lookupBlob_edit_state_new (s : State) (title message page author : String) :
    lookupBlob (edit_state s title message page author) s.blobs.length = some page := by
  simp [lookupBlob, edit_state, commit_state, List.get?_concat_length]

/-- After a successful edit of a title, resolving the title at the new head
yields exactly the submitted content. -/
theorem get_page_revision_edit_state_head (s : State) (title message page author : String) :
    get_page_revision (edit_state s title message page author) title
      (edit_state s title message page author).headRev = some page := by
  rw [get_page_revision_run _ _ _ _ s.blobs.length
    (lookupCommit_edit_state_head s title message page author)
    (Tree.find?_insert_self _ _ _)]
  exact lookupBlob_edit_state_new s title message page author

/-- Inversion for a successful commit_edit: the change check passed, the
render check passed, and the new state is the edit state. -/
theorem commit_edit_ok {render_html : Bool → String → String → Option String}
    {s s' : State} {title message page author : String}
    (h : commit_edit render_html s title message page author = Except.ok s') :
    is_changed s title page = some true ∧ s' = edit_state s title message page author := by
  unfold commit_edit at h
  cases hic : is_changed s title page with
  | none => rw [hic] at h; exact Except.noConfusion h
  | some b =>
    cases b with
    | false => rw [hic] at h; exact Except.noConfusion h
    | true =>
      rw [hic] at h
      unfold edit at h
      cases hr : render_html false title page with
      | none => rw [hr] at h; exact Except.noConfusion h
      | some html => rw [hr] at h; exact ⟨rfl, (Except.ok.injEq _ _ ▸ h).symm⟩

/-- When the page exists at head with content c0, a passed change check means
the submitted content differs from c0. -/
theorem is_changed_true_ne {s : State} {title c0 page : String}
    (h0 : get_page_revision s title s.headRev = some c0)
    (h : is_changed s title page = some true) : page ≠ c0 := by
  obtain ⟨c, oid, hc, hf, hb⟩ := get_page_revision_eq_some h0
  have htree : headTree s = c.tree := by unfold headTree; rw [hc]
  unfold is_changed at h
  rw [htree, hf] at h
  simp only [Option.isNone_some, Bool.false_eq_true, if_false] at h
  rw [h0] at h
  simp only [Option.map_some'] at h
  exact bne_iff_ne.mp (Option.some.inj h)

/-- C1: for every title T, message msg, and content C, a commit_edit(T, msg, C)
that succeeds (in particular C rendered successfully) followed by resolving T
at the new head returns exactly C. -/
theorem C1_edit_then_resolve (render_html : Bool → String → String → Option String)
    (s : State) (T msg C author : String) (s' : State)
    (h : commit_edit render_html s T msg C author = Except.ok s') :
    get_page_revision s' T s'.headRev = some C := by
  obtain ⟨-, hs'⟩ := commit_edit_ok h
  subst hs'
  exact get_page_revision_edit_state_head s T msg C author

/-- A concrete renderer that accepts every source, for witnesses. -/
def render0 : Bool → String → String → Option String := fun _ _ _ => some "<html>"

/-- The state reached from a state by one commit_edit under render0, used to
build concrete witness states (the error fallback is never taken in the
witnesses, which prove the edit succeeds). -/
def stepEdit (s : State) (t m c : String) : State :=
  match commit_edit render0 s t m c "user" with
  | Except.ok s' => s'
  | Except.error _ => s

/-- Witness state: the wiki after creating page intro with content Hello. -/
def exC1 : State := stepEdit init_state "intro" "create" "Hello"

/-- Witness for C1 at a concrete input: editing intro to Hello in the fresh
wiki succeeds and resolving intro at the new head returns Hello. -/
theorem C1_witness :
    get_page_revision exC1 "intro" exC1.headRev = some "Hello" :=
  C1_edit_then_resolve render0 init_state "intro" "create" "Hello" "user" exC1 rfl

/-- C6: a commit_edit whose content equals the current head content for the
title fails with the "an edit must make changes" error.  The model returns
the error without producing a state, mirroring json_edit, which returns the
error dictionary before edit() runs: no blob, tree or commit is written and
the head pointer is untouched. -/
theorem C6_no_change_rejected (render_html : Bool → String → String → Option String)
    (s : State) (T msg C author : String)
    (h0 : get_page_revision s T s.headRev = some C) :
    commit_edit render_html s T msg C author =
      Except.error (WikiError.wikiError "an edit must make changes") := by
  obtain ⟨c, oid, hc, hf, hb⟩ := get_page_revision_eq_some h0
  have htree : headTree s = c.tree := by unfold headTree; rw [hc]
  have hic : is_changed s T C = some false := by
    unfold is_changed
    rw [htree, hf]
    simp only [Option.isNone_some, Bool.false_eq_true, if_false, h0, Option.map_some']
    simp
  unfold commit_edit
  rw [hic]

/-- Witness for C6: resubmitting Hello for intro, whose head content is
already Hello, fails with the no-changes error. -/
theorem C6_witness :
    commit_edit render0 exC1 "intro" "again" "Hello" "user" =
      Except.error (WikiError.wikiError "an edit must make changes") :=
  C6_no_change_rejected render0 exC1 "intro" "again" "Hello" "user" rfl

/-- C9: when the renderer rejects the submitted markup, edit fails before
the blob write, the tree build, the commit and the corpus update: the
validation render is the first statement of edit(), so the error result
carries no new state and the repository, head pointer and search index are
those of the unchanged input state. -/
theorem C9_render_failure_first (render_html : Bool → String → String → Option String)
    (s : State) (T msg C author : String)
    (hfail : render_html false T C = none) :
    edit render_html s T msg C author = Except.error WikiError.renderFailure := by
  unfold edit
  rw [hfail]

/-- A concrete renderer rejecting one specific source text, for witnesses. -/
def renderReject : Bool → String → String → Option String :=
  fun _ _ src => if src = "bad" then none else some "<html>"

/-- Witness for C9: an edit submitting the rejected source fails with the
render failure on the fresh wiki. -/
theorem C9_witness :
    edit renderReject init_state "intro" "m" "bad" "user" =
      Except.error WikiError.renderFailure :=
  C9_render_failure_first renderReject init_state "intro" "m" "bad" "user" rfl

/-- C10: for a title whose path is absent from the head tree, is_changed
returns true for every content, including the empty string, so commit_edit
never fails with the no-changes error there, and proceeds to create the page
whenever the markup renders. -/
theorem C10_absent_is_changed (render_html : Bool → String → String → Option String)
    (s : State) (T msg C author : String)
    (habsent : Tree.find? (headTree s) (T ++ ".rst") = none) :
    is_changed s T C = some true ∧
    commit_edit render_html s T msg C author ≠
      Except.error (WikiError.wikiError "an edit must make changes") ∧
    (∀ html, render_html false T C = some html →
      commit_edit render_html s T msg C author =
        Except.ok (edit_state s T msg C author)) := by
  have hic : is_changed s T C = some true := by
    unfold is_changed
    rw [habsent]
    simp
  refine ⟨hic, ?_, ?_⟩
  · unfold commit_edit
    rw [hic]
    show edit render_html s T msg C author ≠
      Except.error (WikiError.wikiError "an edit must make changes")
    unfold edit
    split <;> simp
  · intro html hr
    unfold commit_edit
    rw [hic]
    show edit render_html s T msg C author = Except.ok (edit_state s T msg C author)
    unfold edit
    rw [hr]

/-- Witness for C10: in the fresh wiki, intro does not exist; is_changed is
true even for the empty content and commit_edit does not fail with the
no-changes error. -/
theorem C10_witness :
    is_changed init_state "intro" "" = some true ∧
    commit_edit render0 init_state "intro" "m" "" "user" ≠
      Except.error (WikiError.wikiError "an edit must make changes") := by
  obtain ⟨h1, h2, -⟩ :=
    C10_absent_is_changed render0 init_state "intro" "m" "" "user" rfl
  exact ⟨h1, h2⟩

/-- parent_of from the spec's interface: the parent revision of a revision. -/
def parent_of (s : State) (r : RevId) : Option RevId :=
  (lookupCommit s r).bind (fun c => c.parent)

/-- Source move(title, new_title, username): read the blob id bound to the
title's path in the head tree (none models the KeyError when it is absent),
remove the old path, insert the new path bound to the same blob id, and
commit the resulting tree with the synthesized rename message.  No blob is
written: the content is not re-written, only re-bound. -/
def move (s : State) (title new_title author : String) : Option State :=
  match Tree.find? (headTree s) (title ++ ".rst") with
  | none => none
  | some blob =>
    some (commit_state s author ("renamed: " ++ title ++ " -> " ++ new_title)
      (Tree.insert (Tree.remove (headTree s) (title ++ ".rst"))
        (new_title ++ ".rst") blob))

theorem append_rst_ne {A B : String} (h : A ≠ B) : A ++ ".rst" ≠ B ++ ".rst" := by
  intro hc
  apply h
  have hdata : (A ++ ".rst").data = (B ++ ".rst").data := by rw [hc]
  rw [String.data_append, String.data_append] at hdata
  exact String.ext (List.append_cancel_right hdata)

/-- C4 (amended with distinct titles): moving A to B with A ≠ B binds B's
path to the very blob id A's path had in the parent revision (the content is
not re-written), the new head's parent is the old head, resolving B at the
new head equals resolving A at that parent, and resolving A at the new head
fails as not found. -/
theorem C4_move_preserves (s : State) (A B author : String) (s' : State)
    (hAB : A ≠ B) (h : move s A B author = some s') :
    ∃ oid,
      Tree.find? (headTree s) (A ++ ".rst") = some oid ∧
      Tree.find? (headTree s') (B ++ ".rst") = some oid ∧
      s'.blobs = s.blobs ∧
      parent_of s' s'.headRev = some s.headRev ∧
      get_page_revision s' B s'.headRev = get_page_revision s' A s.headRev ∧
      get_page_revision s' A s.headRev = get_page_revision s A s.headRev ∧
      get_page_revision s' A s'.headRev = none := by
  unfold move at h
  split at h
  · exact Option.noConfusion h
  · next blob hfind =>
    have hs' : s' = commit_state s author ("renamed: " ++ A ++ " -> " ++ B)
        (Tree.insert (Tree.remove (headTree s) (A ++ ".rst")) (B ++ ".rst") blob) :=
      (Option.some.inj h).symm
    have hcs : lookupCommit s s.headRev ≠ none := by
      intro hnone
      have : headTree s = [] := by unfold headTree; rw [hnone]
      rw [this] at hfind
      exact Option.noConfusion hfind
    obtain ⟨c, hc⟩ := Option.ne_none_iff_exists'.mp hcs
    have htree : headTree s = c.tree := by unfold headTree; rw [hc]
    have hheadlt : lookupCommit s' s.headRev = some c := by
      rw [hs']
      unfold lookupCommit at hc ⊢
      exact List.get?_append_some hc
    have hlookNew : lookupCommit s' s'.headRev =
        some ⟨Tree.insert (Tree.remove (headTree s) (A ++ ".rst")) (B ++ ".rst") blob,
              some s.headRev, "renamed: " ++ A ++ " -> " ++ B, author⟩ := by
      rw [hs']
      unfold lookupCommit commit_state
      simp [List.get?_concat_length]
    have hheadTree' : headTree s' =
        Tree.insert (Tree.remove (headTree s) (A ++ ".rst")) (B ++ ".rst") blob := by
      have hdef : headTree s' = (match lookupCommit s' s'.headRev with
        | some c => c.tree
        | none => ([] : Tree)) := rfl
      simp only [hdef, hlookNew]
    have hblobs : s'.blobs = s.blobs := by rw [hs']; rfl
    have hBA : B ++ ".rst" ≠ A ++ ".rst" := append_rst_ne (fun hh => hAB hh.symm)
    have hAB' : A ++ ".rst" ≠ B ++ ".rst" := append_rst_ne hAB
    have hfindA : Tree.find? c.tree (A ++ ".rst") = some blob := htree ▸ hfind
    refine ⟨blob, hfind, ?_, hblobs, ?_, ?_, ?_, ?_⟩
    · rw [hheadTree']
      exact Tree.find?_insert_self _ _ _
    · unfold parent_of
      rw [hlookNew]
      rfl
    · rw [get_page_revision_run s' B s'.headRev _ blob hlookNew
        (Tree.find?_insert_self _ _ _),
        get_page_revision_run s' A s.headRev c blob hheadlt hfindA]
    · rw [get_page_revision_run s' A s.headRev c blob hheadlt hfindA,
        get_page_revision_run s A s.headRev c blob hc hfindA]
      unfold lookupBlob
      rw [hblobs]
    · refine get_page_revision_absent s' A s'.headRev _ hlookNew ?_
      show Tree.find? (Tree.insert (Tree.remove (headTree s) (A ++ ".rst"))
        (B ++ ".rst") blob) (A ++ ".rst") = none
      rw [Tree.find?_insert_ne _ _ _ _ hAB']
      exact Tree.find?_remove_self _ _

/-- Witness state: the wiki after moving intro to other. -/
def exC4w : State :=
  match move exC1 "intro" "other" "user" with
  | some s' => s'
  | none => exC1

/-- Witness for C4 at a concrete input: moving intro (content Hello) to
other rebinds the same blob, the parent of the new head is the old head,
other resolves at the new head to what intro resolved to at the parent, and
intro no longer resolves at the new head. -/
theorem C4_witness :
    ∃ oid,
      Tree.find? (headTree exC1) ("intro" ++ ".rst") = some oid ∧
      Tree.find? (headTree exC4w) ("other" ++ ".rst") = some oid ∧
      exC4w.blobs = exC1.blobs ∧
      parent_of exC4w exC4w.headRev = some exC1.headRev ∧
      get_page_revision exC4w "other" exC4w.headRev =
        get_page_revision exC4w "intro" exC1.headRev ∧
      get_page_revision exC4w "intro" exC1.headRev =
        get_page_revision exC1 "intro" exC1.headRev ∧
      get_page_revision exC4w "intro" exC4w.headRev = none :=
  C4_move_preserves exC1 "intro" "other" "user" exC4w (by decide) rfl

/-- State produced by the degenerate move of intro onto itself. -/
def exC4c : State :=
  match move exC1 "intro" "intro" "user" with
  | some s' => s'
  | none => exC1

/-- Counterexample to C4 as stated: with A = B = intro (a pair of titles
where A exists at head), commit_move succeeds and creates a commit, but
resolving A at the new head does not fail PageNotFound: it still returns the
content, because the path is removed and then re-inserted.  The claim's
universal quantification over every pair of titles is therefore false; it
holds for distinct titles. -/
theorem C4_counterexample :
    move exC1 "intro" "intro" "user" = some exC4c ∧
    get_page_revision exC4c "intro" exC4c.headRev = some "Hello" :=
  ⟨rfl, rfl⟩

/-- Status of a delta in a tree-to-tree diff. -/
inductive DeltaStatus where
  | added
  | deleted
  | modified
deriving Repr, DecidableEq

/-- One patch of a pygit2 tree-to-tree diff: the old and new file paths
(libgit2 sets both to the file's path for plain adds, deletes and
modifications, and the source never enables rename detection on a diff) and
the blob id on each side, none standing for the null id of an absent side. -/
structure DiffPatch where
  old_file_path : String
  new_file_path : String
  old_blob : Option BlobId
  new_blob : Option BlobId
  status : DeltaStatus
deriving Repr, DecidableEq

/-- Byte-wise comparison of paths as character lists, the order in which
libgit2 emits deltas. -/
def charListLe : List Char → List Char → Bool
  | [], _ => true
  | _ :: _, [] => false
  | a :: as, b :: bs =>
    if a = b then charListLe as bs else decide (a.toNat ≤ b.toNat)

/-- Byte-wise path ordering. -/
def pathLe (a b : String) : Bool := charListLe a.data b.data

/-- pygit2 parent_tree.diff(tree): one patch per path whose binding differs
between the trees, in path order (libgit2 emits deltas sorted by path). -/
def tree_diff (parent t : Tree) : List DiffPatch :=
  ((parent.map Prod.fst ++ t.map Prod.fst).dedup.insertionSort
    (fun a b => pathLe a b = true)).filterMap fun p =>
    match Tree.find? parent p, Tree.find? t p with
    | none, none => none
    | some o, none => some ⟨p, p, some o, none, DeltaStatus.deleted⟩
    | none, some n => some ⟨p, p, none, some n, DeltaStatus.added⟩
    | some o, some n =>
      if o = n then none else some ⟨p, p, some o, some n, DeltaStatus.modified⟩

theorem filterMap_eq_singleton {α β} (f : α → Option β) {l : List α} {key : α} {x : β}
    (hmem : key ∈ l) (hnd : l.Nodup) (hkey : f key = some x)
    (hother : ∀ p ∈ l, p ≠ key → f p = none) : l.filterMap f = [x] := by
  induction l with
  | nil => cases hmem
  | cons a l ih =>
    rcases List.mem_cons.mp hmem with rfl | hmem'
    · rw [List.filterMap_cons_some hkey]
      have hnil : l.filterMap f = [] := List.filterMap_eq_nil_iff.mpr (fun p hp =>
        hother p (List.mem_cons_of_mem _ hp)
          (fun hpk => (List.nodup_cons.mp hnd).1 (hpk ▸ hp)))
      rw [hnil]
    · have hak : a ≠ key := fun h => (List.nodup_cons.mp hnd).1 (h ▸ hmem')
      rw [List.filterMap_cons_none (hother a (List.mem_cons_self a l) hak)]
      exact ih hmem' (List.nodup_cons.mp hnd).2
        (fun p hp hpk => hother p (List.mem_cons_of_mem _ hp) hpk)

/-- The diff of a tree against the same tree with one path rebound to a
fresh blob id is the single modified patch for that path. -/
theorem tree_diff_insert (t : Tree) (key : String) (oid0 oidN : BlobId)
    (h0 : Tree.find? t key = some oid0) (hne : oid0 ≠ oidN) :
    tree_diff t (Tree.insert t key oidN) =
      [⟨key, key, some oid0, some oidN, DeltaStatus.modified⟩] := by
  unfold tree_diff
  have hperm := List.perm_insertionSort (fun a b => pathLe a b = true)
    (t.map Prod.fst ++ (Tree.insert t key oidN).map Prod.fst).dedup
  apply filterMap_eq_singleton
  · apply hperm.mem_iff.mpr
    apply List.mem_dedup.mpr
    apply List.mem_append_right
    show key ∈ ((key, oidN) :: Tree.remove t key).map Prod.fst
    exact List.mem_cons_self _ _
  · exact hperm.nodup_iff.mpr (List.nodup_dedup _)
  · simp only [h0, Tree.find?_insert_self, if_neg hne]
  · intro p hp hpk
    simp only [Tree.find?_insert_ne t key p oidN hpk]
    cases hf : Tree.find? t p <;> simp [hf]

/-- Python filename[:-4], used to turn a tree path back into a title. -/
def stripSuffix4 (s : String) : String :=
  String.mk (s.data.take (s.data.length - 4))

theorem stripSuffix4_rst (t : String) : stripSuffix4 (t ++ ".rst") = t := by
  unfold stripSuffix4
  rw [String.data_append]
  have hlen : (t.data ++ ".rst".data).length - 4 = t.data.length := by
    rw [List.length_append]
    rfl
  rw [hlen, List.take_left t.data _]

/-- Python message.split at the first newline, first component. -/
def firstLine (s : String) : String := (s.splitOn "\n").headD s

/-- Modelled from the spec: the textual unified diff between the two sides
of a single file change (spec 4.3 text_diff), which the source obtains as
the patch text of the pygit2 diff.  A unified diff with full context is
determined by the two sides of the change, so it is represented by that
pair. -/
def text_patch (oldSide newSide : Content) : Content × Content := (oldSide, newSide)

/-- Modelled from the spec: reverse application of a unified diff by the
external patch process (spec 4.3 apply_patch, inverse direction; the source
pipes the diff into patch -Rfd with output on stdout and ignores the exit
status).  When the content equals the patch's new side, the context the
inverse patch expects matches and the old side is produced; otherwise the
application fails deterministically, no hunk is applied, the content is
never mutated in part, and the process emits the input unchanged. -/
def patch_reverse (p : Content × Content) (content : Content) : Content :=
  if content = p.2 then p.1 else content

/-- Source revert(username, target), together with the repo lookup of the
target revision done by its callers.  It recovers the changed file from the
first patch of the target's diff against its parent, reads that file's
current head content, reverse-applies the target's textual patch to it,
raises Error("an edit must make changes") when the result equals the current
content, and otherwise commits the result through edit with the synthesized
Revert message and returns the title.  The keyError results model the
uncaught KeyError, IndexError and StopIteration of the respective lookups in
the source (unknown revision, root target, empty diff, file absent at
head). -/
def revert (render_html : Bool → String → String → Option String)
    (s : State) (targetRev : RevId) (author : String) :
    Except WikiError (State × String) :=
  match lookupCommit s targetRev with
  | none => Except.error WikiError.keyError
  | some target =>
    match target.parent.bind (lookupCommit s) with
    | none => Except.error WikiError.keyError
    | some parent =>
      match (tree_diff parent.tree target.tree).head? with
      | none => Except.error WikiError.keyError
      | some fp =>
        match get_page_revision s (stripSuffix4 fp.new_file_path) s.headRev with
        | none => Except.error WikiError.keyError
        | some current =>
          if current = patch_reverse
              (text_patch ((fp.old_blob.bind (lookupBlob s)).getD "")
                ((fp.new_blob.bind (lookupBlob s)).getD "")) current then
            Except.error (WikiError.wikiError "an edit must make changes")
          else
            (edit render_html s (stripSuffix4 fp.new_file_path)
              ("Revert \"" ++ firstLine target.message ++ "\"")
              (patch_reverse
                (text_patch ((fp.old_blob.bind (lookupBlob s)).getD "")
                  ((fp.new_blob.bind (lookupBlob s)).getD "")) current) author).map
              (fun s2 => (s2, stripSuffix4 fp.new_file_path))

/-- Evaluation of revert once the four lookups are known. -/
theorem revert_run (render_html : Bool → String → String → Option String)
    (s : State) (targetRev : RevId) (author : String)
    (target parent : Commit) (fp : DiffPatch) (current : Content)
    (hT : lookupCommit s targetRev = some target)
    (hP : target.parent.bind (lookupCommit s) = some parent)
    (hD : (tree_diff parent.tree target.tree).head? = some fp)
    (hC : get_page_revision s (stripSuffix4 fp.new_file_path) s.headRev = some current) :
    revert render_html s targetRev author =
      if current = patch_reverse
          (text_patch ((fp.old_blob.bind (lookupBlob s)).getD "")
            ((fp.new_blob.bind (lookupBlob s)).getD "")) current then
        Except.error (WikiError.wikiError "an edit must make changes")
      else
        (edit render_html s (stripSuffix4 fp.new_file_path)
          ("Revert \"" ++ firstLine target.message ++ "\"")
          (patch_reverse
            (text_patch ((fp.old_blob.bind (lookupBlob s)).getD "")
              ((fp.new_blob.bind (lookupBlob s)).getD "")) current) author).map
          (fun s2 => (s2, stripSuffix4 fp.new_file_path)) := by
  unfold revert
  simp only [hT, hP, hD, hC]

theorem lookupBlob_lt {s : State} {i : BlobId} {b : Content}
    (h : lookupBlob s i = some b) : i < s.blobs.length := by
  unfold lookupBlob at h
  by_contra hge
  rw [List.get?_eq_none.mpr (Nat.le_of_not_lt hge)] at h
  exact Option.noConfusion h

theorem headTree_eq {s : State} {c : Commit}
    (hc : lookupCommit s s.headRev = some c) : headTree s = c.tree := by
  unfold headTree
  rw [hc]

/-- Behaviour of revert on a target commit that rebound one title's path
from an existing blob to a freshly written one (the commit an edit of an
existing page creates), run in any later state sc in which the relevant
objects are still readable: the outcome is decided by comparing the current
head content with the reverse-applied patch. -/
theorem revert_after_edit (render_html : Bool → String → String → Option String)
    (s0 sc : State) (T m1 C0 C1 a1 author : String)
    (c0 : Commit) (oid0 : BlobId) (current : Content)
    (hf0 : Tree.find? c0.tree (T ++ ".rst") = some oid0)
    (hlt0 : oid0 < s0.blobs.length)
    (hTc : lookupCommit sc s0.commits.length =
      some ⟨Tree.insert c0.tree (T ++ ".rst") s0.blobs.length, some s0.headRev, m1, a1⟩)
    (hPc : lookupCommit sc s0.headRev = some c0)
    (hBold : lookupBlob sc oid0 = some C0)
    (hBnew : lookupBlob sc s0.blobs.length = some C1)
    (hCc : get_page_revision sc T sc.headRev = some current) :
    revert render_html sc s0.commits.length author =
      if current = patch_reverse (text_patch C0 C1) current then
        Except.error (WikiError.wikiError "an edit must make changes")
      else
        (edit render_html sc T ("Revert \"" ++ firstLine m1 ++ "\"")
          (patch_reverse (text_patch C0 C1) current) author).map
          (fun s2 => (s2, T)) := by
  have hD : (tree_diff c0.tree (Tree.insert c0.tree (T ++ ".rst") s0.blobs.length)).head? =
      some ⟨T ++ ".rst", T ++ ".rst", some oid0, some s0.blobs.length,
        DeltaStatus.modified⟩ := by
    rw [tree_diff_insert c0.tree (T ++ ".rst") oid0 s0.blobs.length hf0 (Nat.ne_of_lt hlt0)]
    rfl
  have hstrip : stripSuffix4 (T ++ ".rst") = T := stripSuffix4_rst T
  have hP' : (⟨Tree.insert c0.tree (T ++ ".rst") s0.blobs.length,
      some s0.headRev, m1, a1⟩ : Commit).parent.bind (lookupCommit sc) = some c0 := hPc
  have hC' : get_page_revision sc
      (stripSuffix4 (⟨T ++ ".rst", T ++ ".rst", some oid0, some s0.blobs.length,
        DeltaStatus.modified⟩ : DiffPatch).new_file_path) sc.headRev = some current := by
    show get_page_revision sc (stripSuffix4 (T ++ ".rst")) sc.headRev = some current
    rw [hstrip]
    exact hCc
  have hrun := revert_run render_html sc s0.commits.length author
    ⟨Tree.insert c0.tree (T ++ ".rst") s0.blobs.length, some s0.headRev, m1, a1⟩ c0
    ⟨T ++ ".rst", T ++ ".rst", some oid0, some s0.blobs.length, DeltaStatus.modified⟩
    current hTc hP' hD hC'
  rw [hrun]
  simp only [Option.some_bind, hBold, hBnew, Option.getD_some, hstrip]

/-- C3: revert round-trip.  If head has content C0 for title T and a
commit_edit of T to C1 succeeds, yielding the revision R1 at the new head,
then with no intervening edits revert(R1) succeeds (C0 renders, as it did
when it was first committed) and yields a revision R2 at the new head whose
content for T is exactly C0. -/
theorem C3_revert_roundtrip (render_html : Bool → String → String → Option String)
    (s0 : State) (T m1 C0 C1 a1 a2 : String) (s1 : State)
    (h0 : get_page_revision s0 T s0.headRev = some C0)
    (hedit : commit_edit render_html s0 T m1 C1 a1 = Except.ok s1)
    (hr0 : (render_html false T C0).isSome) :
    ∃ s2, revert render_html s1 s1.headRev a2 = Except.ok (s2, T) ∧
      get_page_revision s2 T s2.headRev = some C0 := by
  obtain ⟨hic, hs1⟩ := commit_edit_ok hedit
  have hne10 : C1 ≠ C0 := is_changed_true_ne h0 hic
  obtain ⟨c0, oid0, hc0, hf0, hb0⟩ := get_page_revision_eq_some h0
  have htree0 : headTree s0 = c0.tree := headTree_eq hc0
  have hlt0 : oid0 < s0.blobs.length := lookupBlob_lt hb0
  obtain ⟨html0, hr0'⟩ := Option.isSome_iff_exists.mp hr0
  subst hs1
  have hT := lookupCommit_edit_state_head s0 T m1 C1 a1
  rw [htree0] at hT
  have hrev := revert_after_edit render_html s0 (edit_state s0 T m1 C1 a1)
    T m1 C0 C1 a1 a2 c0 oid0 C1 hf0 hlt0 hT
    (lookupCommit_edit_state T m1 C1 a1 hc0)
    (lookupBlob_edit_state T m1 C1 a1 hb0)
    (lookupBlob_edit_state_new s0 T m1 C1 a1)
    (get_page_revision_edit_state_head s0 T m1 C1 a1)
  have hpr : patch_reverse (text_patch C0 C1) C1 = C0 := by
    unfold patch_reverse text_patch
    simp
  rw [hpr, if_neg hne10] at hrev
  refine ⟨edit_state (edit_state s0 T m1 C1 a1) T
    ("Revert \"" ++ firstLine m1 ++ "\"") C0 a2, ?_, ?_⟩
  · show revert render_html (edit_state s0 T m1 C1 a1) s0.commits.length a2 = _
    rw [hrev]
    unfold edit
    rw [hr0']
    rfl
  · exact get_page_revision_edit_state_head _ _ _ _ _

/-- Witness chain for C3: intro is created with content hello, then edited
to world. -/
def wS1 : State := stepEdit init_state "intro" "create" "hello"

/-- Second witness state for C3: intro edited from hello to world. -/
def wS2 : State := stepEdit wS1 "intro" "update" "world"

/-- Witness for C3 at a concrete input: reverting the hello-to-world edit
with no intervening edit succeeds and restores content hello for intro. -/
theorem C3_witness :
    ∃ s2, revert render0 wS2 wS2.headRev "user" = Except.ok (s2, "intro") ∧
      get_page_revision s2 "intro" s2.headRev = some "hello" :=
  C3_revert_roundtrip render0 wS1 "intro" "update" "hello" "world" "user" "user"
    wS2 rfl rfl rfl

/-- C2 (amended): when an intervening edit to the same title lands between
the target revision R1 and head, the head content no longer matches the
context R1's inverse patch expects, the reverse application rejects the
patch leaving the content unchanged, and revert(R1) fails with the Error
carrying the message "an edit must make changes": the same error the no-op
revert check raises, there being no distinct PatchConflict failure in the
code.  No commit is made and the intervening edit is not overwritten: the
error carries no state and the repository is untouched. -/
theorem C2_revert_conflict (render_html : Bool → String → String → Option String)
    (s0 : State) (T m1 m2 C0 C1 C2 a1 a2 a3 : String) (s1 s2 : State)
    (h0 : get_page_revision s0 T s0.headRev = some C0)
    (hedit1 : commit_edit render_html s0 T m1 C1 a1 = Except.ok s1)
    (hedit2 : commit_edit render_html s1 T m2 C2 a2 = Except.ok s2) :
    revert render_html s2 s1.headRev a3 =
      Except.error (WikiError.wikiError "an edit must make changes") := by
  obtain ⟨hic1, hs1⟩ := commit_edit_ok hedit1
  subst hs1
  obtain ⟨hic2, hs2⟩ := commit_edit_ok hedit2
  subst hs2
  obtain ⟨c0, oid0, hc0, hf0, hb0⟩ := get_page_revision_eq_some h0
  have htree0 : headTree s0 = c0.tree := headTree_eq hc0
  have hlt0 : oid0 < s0.blobs.length := lookupBlob_lt hb0
  have hhead1 := get_page_revision_edit_state_head s0 T m1 C1 a1
  have hne21 : C2 ≠ C1 := is_changed_true_ne hhead1 hic2
  have hT := lookupCommit_edit_state_head s0 T m1 C1 a1
  rw [htree0] at hT
  have hrev := revert_after_edit render_html s0
    (edit_state (edit_state s0 T m1 C1 a1) T m2 C2 a2)
    T m1 C0 C1 a1 a3 c0 oid0 C2 hf0 hlt0
    (lookupCommit_edit_state T m2 C2 a2 hT)
    (lookupCommit_edit_state T m2 C2 a2 (lookupCommit_edit_state T m1 C1 a1 hc0))
    (lookupBlob_edit_state T m2 C2 a2 (lookupBlob_edit_state T m1 C1 a1 hb0))
    (lookupBlob_edit_state T m2 C2 a2 (lookupBlob_edit_state_new s0 T m1 C1 a1))
    (get_page_revision_edit_state_head (edit_state s0 T m1 C1 a1) T m2 C2 a2)
  have hpr : patch_reverse (text_patch C0 C1) C2 = C2 := by
    unfold patch_reverse text_patch
    simp [hne21]
  rw [hpr, if_pos rfl] at hrev
  show revert render_html (edit_state (edit_state s0 T m1 C1 a1) T m2 C2 a2)
    s0.commits.length a3 = _
  exact hrev

/-- Counterexample chain for C2: intro is created with content A, edited to
B (the target revision, number 2), then edited to C (the intervening
edit). -/
def cS1 : State := stepEdit init_state "intro" "create" "A"

/-- Second counterexample state for C2. -/
def cS2 : State := stepEdit cS1 "intro" "to B" "B"

/-- Third counterexample state for C2. -/
def cS3 : State := stepEdit cS2 "intro" "to C" "C"

/-- Counterexample to C2 as stated: reverting revision 2 (the A-to-B edit of
intro) after the intervening edit to C fails not with a distinct
PatchConflict failure but with the very Error, message "an edit must make
changes", that the no-op revert check raises: the code cannot tell a
rejected patch (whose output equals its input) from a no-change revert.  The
rest of the claim holds: no commit is made and the intervening edit
survives. -/
theorem C2_counterexample :
    revert render0 cS3 2 "user" =
      Except.error (WikiError.wikiError "an edit must make changes") := by
  rfl

/-- Witness chain for C2: intro created with v0, edited to v1, then to v2. -/
def vS1 : State := stepEdit init_state "intro" "create" "v0"

/-- Second witness state for C2. -/
def vS2 : State := stepEdit vS1 "intro" "first" "v1"

/-- Third witness state for C2. -/
def vS3 : State := stepEdit vS2 "intro" "second" "v2"

/-- Witness for the amended C2 at a concrete input: reverting the v0-to-v1
edit of intro after the intervening edit to v2 fails with the no-changes
Error and makes no commit. -/
theorem C2_witness :
    revert render0 vS3 vS2.headRev "user" =
      Except.error (WikiError.wikiError "an edit must make changes") :=
  C2_revert_conflict render0 vS1 "intro" "first" "second" "v0" "v1" "v2"
    "user" "user" "user" vS2 vS3 rfl rfl rfl

/-- Source page_log(page, commits): filter the commits, keeping those whose
tree contains the page's path and whose first diff patch passes the
membership test the source performs.  That test iterates over the CHARACTERS
of the first patch's new_file_path string (files is a string, so each x is a
one-character string and x[0] is x itself), comparing each with the full
page name.  Commits with no parent never reach page_log (log drops the root
commit before filtering); the model skips them where the source would raise
IndexError.  An empty diff would raise StopIteration; it cannot occur, every
wiki commit changing its tree. -/
def page_log (s : State) (page : String) (commits : List RevId) : List RevId :=
  commits.filter fun rev =>
    match lookupCommit s rev with
    | none => false
    | some c =>
      if (Tree.find? c.tree page).isNone then false
      else
        match c.parent.bind (lookupCommit s) with
        | none => false
        | some parent =>
          match (tree_diff parent.tree c.tree).head? with
          | none => false
          | some fp => fp.new_file_path.data.any fun x => String.mk [x] == page

/-- repo.walk(head, GIT_SORT_TIME): the chain of commits from head along
parent links, newest first.  The fuel bounds the recursion; the commit count
suffices, the store being append-only and parents preceding children. -/
def walk (s : State) : Nat → Option RevId → List RevId
  | 0, _ => []
  | _ + 1, none => []
  | fuel + 1, some r =>
    match lookupCommit s r with
    | none => []
    | some c => r :: walk s fuel c.parent

/-- The commit list page_log is run on by log(): the walk from head with
its last element, the root commit, dropped. -/
def log_commits (s : State) : List RevId :=
  (walk s (s.commits.length + 1) (some s.headRev)).dropLast

/-- C5 fails on the code: page_log never yields any commit, because the
membership test compares each single CHARACTER of the first patch's path
with the whole page name (page is always a title followed by the four
character extension, so no one-character string can equal it).  This proves
the filter empty for every state, every title and every commit list; the
second and third conjuncts exhibit the divergence at the concrete failing
input, the one-edit history of exC1: the sole non-root revision's tree diff
from its parent touches intro.rst, yet page_log returns no revision where
the claim requires exactly that one. -/
theorem C5_page_log_empty :
    (∀ (s : State) (title : String) (commits : List RevId),
      page_log s (title ++ ".rst") commits = []) ∧
    log_commits exC1 = [1] ∧
    tree_diff (headTree init_state) (headTree exC1) =
      [⟨"intro.rst", "intro.rst", none, some 0, DeltaStatus.added⟩] ∧
    page_log exC1 ("intro" ++ ".rst") (log_commits exC1) = [] := by
  refine ⟨?_, rfl, rfl, rfl⟩
  intro s title commits
  unfold page_log
  apply List.filter_eq_nil_iff.mpr
  intro rev hrev
  simp only [Bool.not_eq_true]
  split
  · rfl
  · split
    · rfl
    · split
      · rfl
      · split
        · rfl
        · next fp hfp =>
          apply List.any_eq_false.mpr
          intro x hx
          intro hbeq
          have heq : String.mk [x] = title ++ ".rst" := by
            exact beq_iff_eq.mp hbeq
          have hlen := congrArg String.length heq
          rw [String.length_append] at hlen
          have h1 : (String.mk [x]).length = 1 := rfl
          have h4 : (".rst" : String).length = 4 := rfl
          rw [h1, h4] at hlen
          omega

/-- Source get_html_revision(title, revision, navigation): look the
generated table up by the composite key; on a miss resolve the pinned
revision, render it with the flavor's translator (navigation selects the
translator with the navigation body prefix), insert the rendered content
under the key and return it.  The result pairs the content with the possibly
extended state; none models the uncaught KeyError or docutils exception of
the miss path. -/
def get_html_revision (render_html : Bool → String → String → Option String)
    (s : State) (title : String) (revision : RevId) (navigation : Bool) :
    Option (Content × State) :=
  match s.generated.find? (fun e => decide (e.1 = (title, revision, navigation))) with
  | some e => some (e.2, s)
  | none =>
    match get_page_revision s title revision with
    | none => none
    | some src =>
      match render_html navigation title src with
      | none => none
      | some content =>
        some (content,
          { s with generated :=
            s.generated ++ [((title, revision, navigation), content)] })

theorem find?_append_of_none {α} {l l' : List α} {p : α → Bool}
    (h : l.find? p = none) : (l ++ l').find? p = l'.find? p := by
  induction l with
  | nil => rfl
  | cons a l ih =>
    cases hpa : p a with
    | true =>
      rw [List.find?_cons_of_pos _ hpa] at h
      exact Option.noConfusion h
    | false =>
      have hpa' : ¬ p a = true := by
        rw [hpa]
        exact Bool.false_ne_true
      rw [List.find?_cons_of_neg _ hpa'] at h
      rw [List.cons_append, List.find?_cons_of_neg _ hpa']
      exact ih h

/-- Evaluation of the render cache on a hit. -/
theorem get_html_revision_hit (render_html : Bool → String → String → Option String)
    (s : State) (title : String) (revision : RevId) (navigation : Bool)
    (e : (String × RevId × Bool) × Content)
    (hfind : s.generated.find?
      (fun e => decide (e.1 = (title, revision, navigation))) = some e) :
    get_html_revision render_html s title revision navigation = some (e.2, s) := by
  unfold get_html_revision
  simp only [hfind]

/-- C7: once get_or_render has answered for a key, calling it again on the
resulting state returns the byte-identical content and the very same state:
the second call answers from the stored entry, re-renders nothing and
overwrites nothing. -/
theorem C7_render_cached (render_html : Bool → String → String → Option String)
    (s : State) (title : String) (revision : RevId) (navigation : Bool)
    (c1 : Content) (s1 : State)
    (h : get_html_revision render_html s title revision navigation = some (c1, s1)) :
    get_html_revision render_html s1 title revision navigation = some (c1, s1) := by
  unfold get_html_revision at h
  split at h
  · next e hfind =>
    have hpair := Option.some.inj h
    have hc : c1 = e.2 := (congrArg Prod.fst hpair).symm
    have hs : s1 = s := (congrArg Prod.snd hpair).symm
    subst hs
    rw [hc]
    exact get_html_revision_hit render_html s1 title revision navigation e hfind
  · next hfind =>
    split at h
    · exact Option.noConfusion h
    · next src hsrc =>
      split at h
      · exact Option.noConfusion h
      · next content hcont =>
        have hpair := Option.some.inj h
        have hc : c1 = content := (congrArg Prod.fst hpair).symm
        have hs : s1 = { s with generated :=
            s.generated ++ [((title, revision, navigation), content)] } :=
          (congrArg Prod.snd hpair).symm
        have hgen : s1.generated =
            s.generated ++ [((title, revision, navigation), content)] := by
          rw [hs]
        have hfind1 : s1.generated.find?
            (fun e => decide (e.1 = (title, revision, navigation))) =
            some ((title, revision, navigation), content) := by
          rw [hgen, find?_append_of_none hfind]
          exact List.find?_cons_of_pos _ (by simp)
        have hhit := get_html_revision_hit render_html s1 title revision navigation
          ((title, revision, navigation), content) hfind1
        rw [hc]
        exact hhit

/-- First call of the render cache on the one-page wiki, for the witness. -/
def exC7 : Content × State :=
  match get_html_revision render0 exC1 "intro" 1 false with
  | some r => r
  | none => ("", exC1)

/-- Witness for C7 at a concrete input: after the first render of intro at
revision 1 has been cached, the second call returns the identical content
and leaves the state unchanged. -/
theorem C7_witness :
    get_html_revision render0 exC7.2 "intro" 1 false = some (exC7.1, exC7.2) :=
  C7_render_cached render0 exC1 "intro" 1 false exC7.1 exC7.2 rfl

/-- Python value.split at the first occurrence of a separator character,
with at most one split: the text before the first separator and everything
after it.  none models the absence of the separator (where check_token's
tuple unpacking raises ValueError). -/
def splitAtSep (sep : Char) : List Char → Option (List Char × List Char)
  | [] => none
  | c :: cs =>
    if c = sep then some ([], cs)
    else (splitAtSep sep cs).map (fun r => (c :: r.1, r.2))

/-- Python token.split(hyphen, 1) restricted to its use in check_token. -/
def split1 (sep : Char) (s : String) : Option (String × String) :=
  (splitAtSep sep s.data).map (fun r => (String.mk r.1, String.mk r.2))

/-- Source make_token(key, value) from sign.py, with get_signature(key, .)
abstracted as the function sig: the hyphen-join of the signature and the
value.  The real signature is an HMAC-SHA256 hexdigest, a string of hex
digits, so it never contains the hyphen; theorems carry that as the
hypothesis on sig. -/
def make_token (sig : String → String) (value : String) : String :=
  sig value ++ "-" ++ value

/-- Source check_token(key, token) from sign.py: split at the first hyphen,
compare the mac against the signature of the value (compare_digest is plain
equality on hexdigest strings), return the value on a match and None (the
implicit fall-through) otherwise.  The outer none models the ValueError
raised by the unpacking when the token has no hyphen; the inner option is
the function's return value. -/
def check_token (sig : String → String) (token : String) : Option (Option String) :=
  match split1 '-' token with
  | none => none
  | some (mac, value) =>
    if mac = sig value then some (some value) else some none

theorem splitAtSep_append (sep : Char) (l₁ l₂ : List Char)
    (h : ∀ c ∈ l₁, c ≠ sep) :
    splitAtSep sep (l₁ ++ sep :: l₂) = some (l₁, l₂) := by
  induction l₁ with
  | nil => simp [splitAtSep]
  | cons a l ih =>
    have ha : a ≠ sep := h a (List.mem_cons_self _ _)
    simp [splitAtSep, ha, ih (fun c hc => h c (List.mem_cons_of_mem _ hc))]

/-- C8: the token round-trip.  For every signature function (the HMAC
hexdigest contains no hyphen, the hypothesis) and every value, including
values containing hyphen separators, check_token of make_token returns
exactly the value; and every token that splits into a mac that does not
equal the signature of its value is rejected with None. -/
theorem C8_token_roundtrip (sig : String → String) (value : String)
    (hnd : ∀ c ∈ (sig value).data, c ≠ '-') :
    check_token sig (make_token sig value) = some (some value) ∧
    (∀ token mac v, split1 '-' token = some (mac, v) → mac ≠ sig v →
      check_token sig token = some none) := by
  constructor
  · unfold check_token make_token split1
    have hdata : (sig value ++ "-" ++ value).data =
        (sig value).data ++ '-' :: value.data := by
      rw [String.data_append, String.data_append]
      have h1 : ("-" : String).data = ['-'] := rfl
      rw [h1, List.append_assoc]
      rfl
    rw [hdata, splitAtSep_append '-' _ _ hnd]
    simp
  · intro token mac v hsplit hbad
    unfold check_token
    simp only [hsplit]
    rw [if_neg hbad]

/-- A concrete hexdigest-shaped signature function for the witness. -/
def sigc : String → String := fun _ => "0a1b"

/-- Witness for C8 at a concrete input: the round-trip holds for the value
containing a hyphen, and a token with a wrong mac is rejected. -/
theorem C8_witness :
    check_token sigc (make_token sigc "x-y") = some (some "x-y") ∧
    check_token sigc "ffff-x-y" = some none := by
  obtain ⟨h1, h2⟩ := C8_token_roundtrip sigc "x-y" (by decide)
  exact ⟨h1, h2 "ffff-x-y" "ffff" "x-y" (by decide) (by decide)⟩

end Wiki
